import Mathlib

/-!
# Verification of `functions.py` (Sleep_score repository)

A shallow embedding of the statistical / reshaping helpers of `functions.py`:

* the metric functions `rmse_score`, `mae_score`, `r2`, `adjusted_r2`;
* the cross-validation score normalizer `transform_cross_val_scores`, modelled
  as explicit state passing over a Python-style insertion-ordered dictionary
  (an association list); a raised `KeyError` is modelled as the `.error` case
  of `Except`, carrying the dictionary state at the moment of the raise;
* the comparison-table builder `fill_comparison_df`;
* the bias-corrected Cramer's V pipeline `cramers_corrected_stat` /
  `cramers_matrix`, including the contingency table, the chi-squared statistic
  with the library's continuity-correction rule (the Yates adjustment is
  active only when the correction flag is set *and* the table has one degree
  of freedom), and the Bergsma–Wicher correction;
* the fold-splitter selection logic of `k_fold_cross_val`.

Python/NumPy floats are idealized as real numbers.  Where NumPy silently
produces `nan`/`inf` (division by zero inside the Cramer's V formula) the
real-valued model uses Lean's `x / 0 = 0` convention; no claim below exercises
those inputs.  Where the Python code *raises* (missing dictionary key,
`ZeroDivisionError`, invalid input shapes for the sklearn metrics) the model
returns `Except.error` / `none`.
-/

/-! ## Python dictionaries as insertion-ordered association lists -/

/-- A Python `dict` with `String` keys: an insertion-ordered association list
with (by use) unique keys.  `lookup` returns the first binding. -/
abbrev PyDict (β : Type) : Type := List (String × β)

/-- `d[k]`, the lookup of a key. -/
def lookup {β : Type} (d : PyDict β) (k : String) : Option β :=
  match d with
  | [] => none
  | (k', v) :: rest => if k' = k then some v else lookup rest k

/-- `k in d`, key membership. -/
def hasKey {β : Type} (d : PyDict β) (k : String) : Bool :=
  match d with
  | [] => false
  | (k', _) :: rest => k' == k || hasKey rest k

/-- `d[k] = v`: overwrite the binding in place if the key is present
(keeping its position, as a Python dict does), else append it at the end. -/
def setKey {β : Type} (d : PyDict β) (k : String) (v : β) : PyDict β :=
  match d with
  | [] => [(k, v)]
  | (k', v') :: rest => if k' = k then (k, v) :: rest else (k', v') :: setKey rest k v

theorem lookup_isSome_eq_hasKey {β : Type} (d : PyDict β) (k : String) :
    (lookup d k).isSome = hasKey d k := by
  induction d with
  | nil => rfl
  | cons p rest ih =>
      obtain ⟨k', v⟩ := p
      by_cases h : k' = k <;> simp [lookup, hasKey, h, ih]

theorem lookup_setKey_self {β : Type} (d : PyDict β) (k : String) (v : β) :
    lookup (setKey d k v) k = some v := by
  induction d with
  | nil => simp [setKey, lookup]
  | cons p rest ih =>
      obtain ⟨k', v'⟩ := p
      by_cases h : k' = k <;> simp [setKey, lookup, h, ih]

theorem lookup_setKey_ne {β : Type} (d : PyDict β) {k k' : String} (v : β)
    (h : k' ≠ k) : lookup (setKey d k v) k' = lookup d k' := by
  induction d with
  | nil => simp [setKey, lookup, Ne.symm h]
  | cons p rest ih =>
      obtain ⟨k₀, v₀⟩ := p
      by_cases h₀ : k₀ = k
      · subst h₀
        simp [setKey, lookup, Ne.symm h]
      · simp [setKey, lookup, h₀, ih]

theorem hasKey_setKey {β : Type} (d : PyDict β) (k k' : String) (v : β) :
    hasKey (setKey d k v) k' = (hasKey d k' || k == k') := by
  induction d with
  | nil => simp [setKey, hasKey]
  | cons p rest ih =>
      obtain ⟨k₀, v₀⟩ := p
      by_cases h₀ : k₀ = k
      · subst h₀
        simp only [setKey, if_pos rfl, hasKey]
        cases hk : (k₀ == k') <;> cases hr : hasKey rest k' <;> simp [hk, hr]
      · simp [setKey, hasKey, h₀, ih, Bool.or_assoc]

theorem setKey_of_not_hasKey {β : Type} (d : PyDict β) {k : String} (v : β)
    (h : hasKey d k = false) : setKey d k v = d ++ [(k, v)] := by
  induction d with
  | nil => simp [setKey]
  | cons p rest ih =>
      obtain ⟨k₀, v₀⟩ := p
      simp only [hasKey, Bool.or_eq_false_iff, beq_eq_false_iff_ne, ne_eq] at h
      simp [setKey, h.1, ih h.2]

theorem hasKey_append {β : Type} (d e : PyDict β) (k : String) :
    hasKey (d ++ e) k = (hasKey d k || hasKey e k) := by
  induction d with
  | nil => simp [hasKey]
  | cons p rest ih =>
      obtain ⟨k₀, v₀⟩ := p
      simp [hasKey, ih, Bool.or_assoc]

theorem lookup_append_of_hasKey_eq_false {β : Type} (d e : PyDict β) {k : String}
    (h : hasKey d k = false) : lookup (d ++ e) k = lookup e k := by
  induction d with
  | nil => simp
  | cons p rest ih =>
      obtain ⟨k₀, v₀⟩ := p
      simp only [hasKey, Bool.or_eq_false_iff, beq_eq_false_iff_ne, ne_eq] at h
      simp [lookup, h.1, ih h.2]

theorem lookup_append_left {β : Type} (d e : PyDict β) {k : String}
    (h : hasKey d k = true) : lookup (d ++ e) k = lookup d k := by
  induction d with
  | nil => simp [hasKey] at h
  | cons p rest ih =>
      obtain ⟨k₀, v₀⟩ := p
      by_cases h₀ : k₀ = k
      · simp [lookup, h₀]
      · simp only [hasKey, Bool.or_eq_true, beq_iff_eq, h₀, false_or] at h
        simp [lookup, h₀, ih h]

theorem setKey_append_singleton {β : Type} (d : PyDict β) {k : String} (v w : β)
    (h : hasKey d k = false) : setKey (d ++ [(k, v)]) k w = d ++ [(k, w)] := by
  induction d with
  | nil => simp [setKey]
  | cons p rest ih =>
      obtain ⟨k₀, v₀⟩ := p
      simp only [hasKey, Bool.or_eq_false_iff, beq_eq_false_iff_ne, ne_eq] at h
      simp [setKey, h.1, ih h.2]

/-! ## Metric functions (§4.1 of the spec; `functions.py` lines 29–67)

NumPy/sklearn vectors are lists of reals.  The sklearn metrics raise on
mismatched lengths and on empty input; `r2_score` additionally returns `nan`
(with a warning) on fewer than two samples.  All of those "no defined real
result" outcomes are modelled as `none`. -/

/-- Arithmetic mean of a list, `np.mean` (only ever applied to nonempty
lists by the claims; Lean's `x / 0 = 0` covers the empty case formally). -/
noncomputable def listMean (xs : List ℝ) : ℝ := xs.sum / xs.length

/-- Population standard deviation, `np.std` (ddof = 0):
`sqrt(mean((x - mean x)^2))`. -/
noncomputable def listStd (xs : List ℝ) : ℝ :=
  Real.sqrt (listMean (xs.map (fun v => (v - listMean xs) ^ 2)))

/-- `sklearn.metrics.mean_squared_error`: mean of squared differences;
raises (`none`) on mismatched lengths or empty input. -/
noncomputable def mean_squared_error (y_true y_pred : List ℝ) : Option ℝ :=
  if y_true.length = y_pred.length ∧ y_true.length ≠ 0 then
    some (listMean (List.zipWith (fun a b => (a - b) ^ 2) y_true y_pred))
  else none

/-- `sklearn.metrics.mean_absolute_error`. -/
noncomputable def mean_absolute_error (y_true y_pred : List ℝ) : Option ℝ :=
  if y_true.length = y_pred.length ∧ y_true.length ≠ 0 then
    some (listMean (List.zipWith (fun a b => |a - b|) y_true y_pred))
  else none

/-- `sklearn.metrics.r2_score`: raises on mismatched lengths, returns `nan`
(modelled `none`) on fewer than 2 samples; with a zero-variance `y_true` it
returns `1.0` when the residual sum is also zero and `0.0` otherwise. -/
noncomputable def r2_score (y_true y_pred : List ℝ) : Option ℝ :=
  if y_true.length = y_pred.length then
    if y_true.length < 2 then none
    else
      some (
        if (y_true.map (fun v => (v - listMean y_true) ^ 2)).sum ≠ 0 then
          1 - (List.zipWith (fun a b => (a - b) ^ 2) y_true y_pred).sum /
            (y_true.map (fun v => (v - listMean y_true) ^ 2)).sum
        else if (List.zipWith (fun a b => (a - b) ^ 2) y_true y_pred).sum ≠ 0 then 0
        else 1)
  else none

/-- `rmse_score` (lines 29–37): `np.sqrt(mean_squared_error(y_true, y_pred))`.
The `as_int`/`form` presentation toggle (4-decimal string) is omitted:
only the float path is modelled. -/
noncomputable def rmse_score (y_true y_pred : List ℝ) : Option ℝ :=
  (mean_squared_error y_true y_pred).map Real.sqrt

/-- `mae_score` (lines 39–46). -/
noncomputable def mae_score (y_true y_pred : List ℝ) : Option ℝ :=
  mean_absolute_error y_true y_pred

/-- `r2` (lines 48–55): delegates to `r2_score`. -/
noncomputable def r2 (y_true y_pred : List ℝ) : Option ℝ :=
  r2_score y_true y_pred

/-- `adjusted_r2` (lines 58–67): `1 - (1 - r2) * (n - 1) / (n - p - 1)` with
`n = len(y_true)` and `p = X_df.shape[1]`; only the column count of `X_df`
is used, so the feature matrix is passed as its width `p`.  Python raises
`ZeroDivisionError` when `n - p - 1 == 0`, modelled as `none`. -/
noncomputable def adjusted_r2 (y_true : List ℝ) (p : ℕ) (r2v : ℝ) : Option ℝ :=
  if (y_true.length : ℤ) - p - 1 = 0 then none
  else some (1 - (1 - r2v) * ((y_true.length : ℝ) - 1) / ((y_true.length : ℝ) - p - 1))

/-! ## Cross-validation score normalizer (§4.3; `functions.py` lines 161–191)

`perf_dict` holds NumPy arrays (the raw per-fold scores) and, after
normalization, scalar floats; the two shapes are the two `Value`
constructors.  `np.abs(...)`, `.mean()` and `.std()` work on both (a 0-d
NumPy scalar has `.mean()` = itself and `.std()` = 0). -/

/-- A value stored in `perf_dict`: a per-fold score array or a scalar. -/
inductive Value : Type
  | arr : List ℝ → Value
  | num : ℝ → Value

/-- `np.abs`. -/
def vAbs : Value → Value
  | .arr xs => .arr (xs.map (fun v => |v|))
  | .num v => .num |v|

/-- `.mean()`. -/
noncomputable def vMean : Value → ℝ
  | .arr xs => listMean xs
  | .num v => v

/-- `.std()`. -/
noncomputable def vStd : Value → ℝ
  | .arr xs => listStd xs
  | .num _ => 0

/-- The canonical translation table (`mapping`, lines 176–180). -/
def mapping (score : String) : Option String :=
  if score = "neg_root_mean_squared_error" then some "rmse"
  else if score = "neg_mean_absolute_error" then some "mae"
  else if score = "r2" then some "r2"
  else none

/-- One iteration of the loop body (lines 182–189) for a single requested
`score`.  Python evaluates, for each of the four assignments, first the
right-hand side (the raw-key lookup `perf_dict[f'train_{score}']`), then the
target key (`mapping[score]`), then performs the write; a failed lookup
raises `KeyError`, carrying the dictionary as mutated so far. -/
noncomputable def stepScore (d : PyDict Value) (s : String) : Except (PyDict Value) (PyDict Value) :=
  match lookup d ("train_" ++ s) with
  | none => .error d
  | some vtr =>
    match mapping s with
    | none => .error d
    | some m =>
      let d1 := setKey d ("train_" ++ m ++ "_mean") (.num (vMean (vAbs vtr)))
      match lookup d1 ("test_" ++ s) with
      | none => .error d1
      | some vte =>
        let d2 := setKey d1 ("test_" ++ m ++ "_mean") (.num (vMean (vAbs vte)))
        match lookup d2 ("train_" ++ s) with
        | none => .error d2
        | some vtr2 =>
          let d3 := setKey d2 ("train_" ++ m ++ "_std") (.num (vStd (vAbs vtr2)))
          match lookup d3 ("test_" ++ s) with
          | none => .error d3
          | some vte2 =>
            .ok (setKey d3 ("test_" ++ m ++ "_std") (.num (vStd (vAbs vte2))))

/-- `transform_cross_val_scores(perf_dict, scoring)` (lines 161–191):
the `for score in scoring` loop; returns the mutated `perf_dict`
(`.ok`) or raises (`.error`, carrying the partially mutated state). -/
noncomputable def transform_cross_val_scores (d : PyDict Value) :
    List String → Except (PyDict Value) (PyDict Value)
  | [] => .ok d
  | s :: rest =>
    match stepScore d s with
    | .error d' => .error d'
    | .ok d' => transform_cross_val_scores d' rest

/-- A requested score identifier is "valid" for `perf_dict` when it is in the
canonical table and both of its raw keys are present. -/
def validScore (d : PyDict Value) (s : String) : Bool :=
  (mapping s).isSome && hasKey d ("train_" ++ s) && hasKey d ("test_" ++ s)

/-- The four normalized keys written for canonical metric `m`, in write
order. -/
def targetKeys (m : String) : List String :=
  ["train_" ++ m ++ "_mean", "test_" ++ m ++ "_mean",
   "train_" ++ m ++ "_std", "test_" ++ m ++ "_std"]

/-- None of the four normalized target keys of a requested score is already
present in `perf_dict`. -/
def freshTargets (d : PyDict Value) (s : String) : Bool :=
  match mapping s with
  | none => false
  | some m => (targetKeys m).all (fun k => !(hasKey d k))

/-- The four bindings one valid requested score appends to `perf_dict`. -/
noncomputable def newEntries (d : PyDict Value) (s : String) : PyDict Value :=
  match mapping s, lookup d ("train_" ++ s), lookup d ("test_" ++ s) with
  | some m, some vtr, some vte =>
      [("train_" ++ m ++ "_mean", .num (vMean (vAbs vtr))),
       ("test_" ++ m ++ "_mean", .num (vMean (vAbs vte))),
       ("train_" ++ m ++ "_std", .num (vStd (vAbs vtr))),
       ("test_" ++ m ++ "_std", .num (vStd (vAbs vte)))]
  | _, _, _ => []

/-- The bindings appended for a whole scoring list. -/
noncomputable def allNewEntries (d : PyDict Value) : List String → PyDict Value
  | [] => []
  | s :: rest => newEntries d s ++ allNewEntries d rest

/-! ### Key-structure facts

The canonical table has three entries; the twelve normalized target keys
never collide with the six raw per-fold keys, and target-key groups of
distinct requested scores are disjoint. -/

theorem mapped_cases {s m : String} (h : mapping s = some m) :
    (s = "neg_root_mean_squared_error" ∧ m = "rmse") ∨
    (s = "neg_mean_absolute_error" ∧ m = "mae") ∨ (s = "r2" ∧ m = "r2") := by
  unfold mapping at h
  split_ifs at h with h1 h2 h3
  · exact Or.inl ⟨h1, (Option.some_inj.mp h).symm⟩
  · exact Or.inr (Or.inl ⟨h2, (Option.some_inj.mp h).symm⟩)
  · exact Or.inr (Or.inr ⟨h3, (Option.some_inj.mp h).symm⟩)

theorem raw_target_ne {s m s' m' : String} (hs : mapping s = some m)
    (hs' : mapping s' = some m') :
    ∀ k ∈ targetKeys m', ("train_" ++ s) ≠ k ∧ ("test_" ++ s) ≠ k := by
  rcases mapped_cases hs with ⟨rfl, rfl⟩ | ⟨rfl, rfl⟩ | ⟨rfl, rfl⟩ <;>
    rcases mapped_cases hs' with ⟨rfl, rfl⟩ | ⟨rfl, rfl⟩ | ⟨rfl, rfl⟩ <;> decide

theorem targetKeys_nodup {s m : String} (hs : mapping s = some m) :
    (targetKeys m).Nodup := by
  rcases mapped_cases hs with ⟨rfl, rfl⟩ | ⟨rfl, rfl⟩ | ⟨rfl, rfl⟩ <;> decide

theorem target_disjoint {s m s' m' : String} (hs : mapping s = some m)
    (hs' : mapping s' = some m') (hne : s ≠ s') :
    ∀ k ∈ targetKeys m, k ∉ targetKeys m' := by
  rcases mapped_cases hs with ⟨rfl, rfl⟩ | ⟨rfl, rfl⟩ | ⟨rfl, rfl⟩ <;>
    rcases mapped_cases hs' with ⟨rfl, rfl⟩ | ⟨rfl, rfl⟩ | ⟨rfl, rfl⟩ <;>
      first
      | exact absurd rfl hne
      | decide

theorem targets_pairwise_ne {s m : String} (hs : mapping s = some m) :
    ("train_" ++ m ++ "_mean") ≠ ("test_" ++ m ++ "_mean") ∧
    ("train_" ++ m ++ "_mean") ≠ ("train_" ++ m ++ "_std") ∧
    ("train_" ++ m ++ "_mean") ≠ ("test_" ++ m ++ "_std") ∧
    ("test_" ++ m ++ "_mean") ≠ ("train_" ++ m ++ "_std") ∧
    ("test_" ++ m ++ "_mean") ≠ ("test_" ++ m ++ "_std") ∧
    ("train_" ++ m ++ "_std") ≠ ("test_" ++ m ++ "_std") := by
  rcases mapped_cases hs with ⟨rfl, rfl⟩ | ⟨rfl, rfl⟩ | ⟨rfl, rfl⟩ <;> decide

/-! ### Behaviour of one loop iteration -/

theorem stepScore_ok_of_valid {d : PyDict Value} {s m : String} {vtr vte : Value}
    (hm : mapping s = some m)
    (htr : lookup d ("train_" ++ s) = some vtr)
    (hte : lookup d ("test_" ++ s) = some vte)
    (hf : ∀ k ∈ targetKeys m, hasKey d k = false) :
    stepScore d s = .ok (d ++ newEntries d s) := by
  have hne := raw_target_ne hm hm
  have hnd := targetKeys_nodup hm
  have mem1 : ("train_" ++ m ++ "_mean") ∈ targetKeys m := by simp [targetKeys]
  have mem2 : ("test_" ++ m ++ "_mean") ∈ targetKeys m := by simp [targetKeys]
  have mem3 : ("train_" ++ m ++ "_std") ∈ targetKeys m := by simp [targetKeys]
  have mem4 : ("test_" ++ m ++ "_std") ∈ targetKeys m := by simp [targetKeys]
  have l2 : lookup (setKey d ("train_" ++ m ++ "_mean") (.num (vMean (vAbs vtr))))
      ("test_" ++ s) = some vte := by
    rw [lookup_setKey_ne _ _ ((hne _ mem1).2), hte]
  have l3 : lookup (setKey (setKey d ("train_" ++ m ++ "_mean") (.num (vMean (vAbs vtr))))
      ("test_" ++ m ++ "_mean") (.num (vMean (vAbs vte)))) ("train_" ++ s) = some vtr := by
    rw [lookup_setKey_ne _ _ ((hne _ mem2).1), lookup_setKey_ne _ _ ((hne _ mem1).1), htr]
  have l4 : lookup (setKey (setKey (setKey d ("train_" ++ m ++ "_mean")
      (.num (vMean (vAbs vtr)))) ("test_" ++ m ++ "_mean") (.num (vMean (vAbs vte))))
      ("train_" ++ m ++ "_std") (.num (vStd (vAbs vtr)))) ("test_" ++ s) = some vte := by
    rw [lookup_setKey_ne _ _ ((hne _ mem3).2), lookup_setKey_ne _ _ ((hne _ mem2).2),
      lookup_setKey_ne _ _ ((hne _ mem1).2), hte]
  obtain ⟨n12, n13, n14, n23, n24, n34⟩ := targets_pairwise_ne hm
  have f2 : hasKey (setKey d ("train_" ++ m ++ "_mean") (.num (vMean (vAbs vtr))))
      ("test_" ++ m ++ "_mean") = false := by
    rw [hasKey_setKey, hf _ mem2, beq_eq_false_iff_ne.mpr n12]
    rfl
  have f3 : hasKey (setKey (setKey d ("train_" ++ m ++ "_mean") (.num (vMean (vAbs vtr))))
      ("test_" ++ m ++ "_mean") (.num (vMean (vAbs vte)))) ("train_" ++ m ++ "_std")
      = false := by
    rw [hasKey_setKey, hasKey_setKey, hf _ mem3,
      beq_eq_false_iff_ne.mpr n13, beq_eq_false_iff_ne.mpr n23]
    rfl
  have f4 : hasKey (setKey (setKey (setKey d ("train_" ++ m ++ "_mean")
      (.num (vMean (vAbs vtr)))) ("test_" ++ m ++ "_mean") (.num (vMean (vAbs vte))))
      ("train_" ++ m ++ "_std") (.num (vStd (vAbs vtr)))) ("test_" ++ m ++ "_std")
      = false := by
    rw [hasKey_setKey, hasKey_setKey, hasKey_setKey, hf _ mem4,
      beq_eq_false_iff_ne.mpr n14, beq_eq_false_iff_ne.mpr n24,
      beq_eq_false_iff_ne.mpr n34]
    rfl
  simp only [stepScore, htr, hm, l2, l3, l4]
  simp only [newEntries, hm, htr, hte]
  rw [setKey_of_not_hasKey _ _ f4, setKey_of_not_hasKey _ _ f3,
    setKey_of_not_hasKey _ _ f2, setKey_of_not_hasKey _ _ (hf _ mem1)]
  simp

theorem stepScore_ok_of_validScore {d : PyDict Value} {s : String}
    (hv : validScore d s = true) : ∃ d', stepScore d s = .ok d' := by
  simp only [validScore, Bool.and_eq_true, Option.isSome_iff_exists] at hv
  obtain ⟨⟨⟨m, hm⟩, htrk⟩, htek⟩ := hv
  obtain ⟨vtr, htr⟩ := Option.isSome_iff_exists.mp
    ((lookup_isSome_eq_hasKey d ("train_" ++ s)).symm ▸ htrk)
  obtain ⟨vte, hte⟩ := Option.isSome_iff_exists.mp
    ((lookup_isSome_eq_hasKey d ("test_" ++ s)).symm ▸ htek)
  have hne := raw_target_ne hm hm
  have mem1 : ("train_" ++ m ++ "_mean") ∈ targetKeys m := by simp [targetKeys]
  have mem2 : ("test_" ++ m ++ "_mean") ∈ targetKeys m := by simp [targetKeys]
  have mem3 : ("train_" ++ m ++ "_std") ∈ targetKeys m := by simp [targetKeys]
  have l2 : lookup (setKey d ("train_" ++ m ++ "_mean") (.num (vMean (vAbs vtr))))
      ("test_" ++ s) = some vte := by
    rw [lookup_setKey_ne _ _ ((hne _ mem1).2), hte]
  have l3 : lookup (setKey (setKey d ("train_" ++ m ++ "_mean") (.num (vMean (vAbs vtr))))
      ("test_" ++ m ++ "_mean") (.num (vMean (vAbs vte)))) ("train_" ++ s) = some vtr := by
    rw [lookup_setKey_ne _ _ ((hne _ mem2).1), lookup_setKey_ne _ _ ((hne _ mem1).1), htr]
  have l4 : lookup (setKey (setKey (setKey d ("train_" ++ m ++ "_mean")
      (.num (vMean (vAbs vtr)))) ("test_" ++ m ++ "_mean") (.num (vMean (vAbs vte))))
      ("train_" ++ m ++ "_std") (.num (vStd (vAbs vtr)))) ("test_" ++ s) = some vte := by
    rw [lookup_setKey_ne _ _ ((hne _ mem3).2), lookup_setKey_ne _ _ ((hne _ mem2).2),
      lookup_setKey_ne _ _ ((hne _ mem1).2), hte]
  exact ⟨setKey (setKey (setKey (setKey d ("train_" ++ m ++ "_mean")
    (.num (vMean (vAbs vtr)))) ("test_" ++ m ++ "_mean") (.num (vMean (vAbs vte))))
    ("train_" ++ m ++ "_std") (.num (vStd (vAbs vtr)))) ("test_" ++ m ++ "_std")
    (.num (vStd (vAbs vte))), by simp only [stepScore, htr, hm, l2, l3, l4]⟩

theorem stepScore_error_of_invalid {d : PyDict Value} {s : String}
    (hv : validScore d s = false) : ∃ d', stepScore d s = .error d' := by
  cases htr : lookup d ("train_" ++ s) with
  | none => exact ⟨d, by simp only [stepScore, htr]⟩
  | some vtr =>
      cases hm : mapping s with
      | none => exact ⟨d, by simp only [stepScore, htr, hm]⟩
      | some m =>
          have htrk : hasKey d ("train_" ++ s) = true := by
            rw [← lookup_isSome_eq_hasKey, htr]; rfl
          have htek : hasKey d ("test_" ++ s) = false := by
            cases hbool : hasKey d ("test_" ++ s) with
            | false => rfl
            | true => simp [validScore, hm, htrk, hbool] at hv
          have hte : lookup d ("test_" ++ s) = none := by
            cases hlk : lookup d ("test_" ++ s) with
            | none => rfl
            | some v =>
                rw [← lookup_isSome_eq_hasKey, hlk] at htek
                exact absurd htek (by simp)
          have hne := raw_target_ne hm hm
          have mem1 : ("train_" ++ m ++ "_mean") ∈ targetKeys m := by simp [targetKeys]
          have l2 : lookup (setKey d ("train_" ++ m ++ "_mean")
              (.num (vMean (vAbs vtr)))) ("test_" ++ s) = none := by
            rw [lookup_setKey_ne _ _ ((hne _ mem1).2), hte]
          exact ⟨setKey d ("train_" ++ m ++ "_mean") (.num (vMean (vAbs vtr))),
            by simp only [stepScore, htr, hm, l2]⟩

theorem stepScore_ok_shape {d d' : PyDict Value} {s : String}
    (h : stepScore d s = .ok d') :
    ∃ m w1 w2 w3 w4, mapping s = some m ∧
      d' = setKey (setKey (setKey (setKey d ("train_" ++ m ++ "_mean") w1)
        ("test_" ++ m ++ "_mean") w2) ("train_" ++ m ++ "_std") w3)
        ("test_" ++ m ++ "_std") w4 := by
  unfold stepScore at h
  cases htr : lookup d ("train_" ++ s) with
  | none => rw [htr] at h; exact absurd h (by simp)
  | some vtr =>
      rw [htr] at h
      cases hm : mapping s with
      | none => rw [hm] at h; exact absurd h (by simp)
      | some m =>
          rw [hm] at h
          simp only at h
          cases h2 : lookup (setKey d ("train_" ++ m ++ "_mean")
              (Value.num (vMean (vAbs vtr)))) ("test_" ++ s) with
          | none => rw [h2] at h; exact absurd h (by simp)
          | some vte =>
              rw [h2] at h
              simp only at h
              cases h3 : lookup (setKey (setKey d ("train_" ++ m ++ "_mean")
                  (Value.num (vMean (vAbs vtr)))) ("test_" ++ m ++ "_mean")
                  (Value.num (vMean (vAbs vte)))) ("train_" ++ s) with
              | none => rw [h3] at h; exact absurd h (by simp)
              | some vtr2 =>
                  rw [h3] at h
                  simp only at h
                  cases h4 : lookup (setKey (setKey (setKey d ("train_" ++ m ++ "_mean")
                      (Value.num (vMean (vAbs vtr)))) ("test_" ++ m ++ "_mean")
                      (Value.num (vMean (vAbs vte)))) ("train_" ++ m ++ "_std")
                      (Value.num (vStd (vAbs vtr2)))) ("test_" ++ s) with
                  | none => rw [h4] at h; exact absurd h (by simp)
                  | some vte2 =>
                      rw [h4] at h
                      simp only [Except.ok.injEq] at h
                      exact ⟨m, _, _, _, _, rfl, h.symm⟩

/-! ### Invariants across loop iterations -/

theorem validScore_append_true {d : PyDict Value} (e : PyDict Value) {s : String}
    (hv : validScore d s = true) : validScore (d ++ e) s = true := by
  simp only [validScore, Bool.and_eq_true, hasKey_append] at hv ⊢
  exact ⟨⟨hv.1.1, by rw [hv.1.2]; rfl⟩, by rw [hv.2]; rfl⟩

theorem freshTargets_iff {d : PyDict Value} {s m : String} (hm : mapping s = some m) :
    freshTargets d s = true ↔ ∀ k ∈ targetKeys m, hasKey d k = false := by
  simp [freshTargets, hm, List.all_eq_true]

theorem hasKey_newEntries_imp_mem {d : PyDict Value} {s₀ k : String}
    (h : hasKey (newEntries d s₀) k = true) :
    ∃ m₀, mapping s₀ = some m₀ ∧ k ∈ targetKeys m₀ := by
  unfold newEntries at h
  cases hm : mapping s₀ with
  | none => rw [hm] at h; simp [hasKey] at h
  | some m₀ =>
      rw [hm] at h
      cases htr : lookup d ("train_" ++ s₀) with
      | none => rw [htr] at h; simp [hasKey] at h
      | some vtr =>
          rw [htr] at h
          cases hte : lookup d ("test_" ++ s₀) with
          | none => rw [hte] at h; simp [hasKey] at h
          | some vte =>
              rw [hte] at h
              simp only [hasKey, Bool.or_eq_true, beq_iff_eq] at h
              refine ⟨m₀, rfl, ?_⟩
              simp only [targetKeys, List.mem_cons, List.not_mem_nil, or_false]
              rcases h with h | h | h | h | h
              · exact Or.inl h.symm
              · exact Or.inr (Or.inl h.symm)
              · exact Or.inr (Or.inr (Or.inl h.symm))
              · exact Or.inr (Or.inr (Or.inr h.symm))
              · simp [hasKey] at h

theorem newEntries_append_eq {d : PyDict Value} (e : PyDict Value) {s : String}
    (htr : hasKey d ("train_" ++ s) = true) (hte : hasKey d ("test_" ++ s) = true) :
    newEntries (d ++ e) s = newEntries d s := by
  unfold newEntries
  rw [lookup_append_left _ _ htr, lookup_append_left _ _ hte]

theorem allNewEntries_congr {d d' : PyDict Value} {l : List String}
    (h : ∀ s ∈ l, newEntries d' s = newEntries d s) :
    allNewEntries d' l = allNewEntries d l := by
  induction l with
  | nil => rfl
  | cons s₀ rest ih =>
      simp only [allNewEntries]
      rw [h s₀ (List.mem_cons_self _ _), ih (fun s hs => h s (List.mem_cons_of_mem _ hs))]

theorem newEntries_length {d : PyDict Value} {s : String}
    (hv : validScore d s = true) : (newEntries d s).length = 4 := by
  simp only [validScore, Bool.and_eq_true, Option.isSome_iff_exists] at hv
  obtain ⟨⟨⟨m, hm⟩, htrk⟩, htek⟩ := hv
  obtain ⟨vtr, htr⟩ := Option.isSome_iff_exists.mp
    ((lookup_isSome_eq_hasKey d ("train_" ++ s)).symm ▸ htrk)
  obtain ⟨vte, hte⟩ := Option.isSome_iff_exists.mp
    ((lookup_isSome_eq_hasKey d ("test_" ++ s)).symm ▸ htek)
  simp [newEntries, hm, htr, hte]

theorem allNewEntries_length {d : PyDict Value} {scoring : List String}
    (hva : ∀ s ∈ scoring, validScore d s = true) :
    (allNewEntries d scoring).length = 4 * scoring.length := by
  induction scoring with
  | nil => rfl
  | cons s₀ rest ih =>
      simp only [allNewEntries, List.length_append, List.length_cons,
        newEntries_length (hva s₀ (List.mem_cons_self _ _)),
        ih (fun s hs => hva s (List.mem_cons_of_mem _ hs))]
      ring

theorem lookup_newEntries {d : PyDict Value} {s m : String} {vtr vte : Value}
    (hm : mapping s = some m)
    (htr : lookup d ("train_" ++ s) = some vtr)
    (hte : lookup d ("test_" ++ s) = some vte) :
    lookup (newEntries d s) ("train_" ++ m ++ "_mean") = some (.num (vMean (vAbs vtr))) ∧
    lookup (newEntries d s) ("test_" ++ m ++ "_mean") = some (.num (vMean (vAbs vte))) ∧
    lookup (newEntries d s) ("train_" ++ m ++ "_std") = some (.num (vStd (vAbs vtr))) ∧
    lookup (newEntries d s) ("test_" ++ m ++ "_std") = some (.num (vStd (vAbs vte))) := by
  obtain ⟨n12, n13, n14, n23, n24, n34⟩ := targets_pairwise_ne hm
  simp only [newEntries, hm, htr, hte]
  refine ⟨?_, ?_, ?_, ?_⟩
  · rw [lookup, if_pos rfl]
  · rw [lookup, if_neg n12, lookup, if_pos rfl]
  · rw [lookup, if_neg n13, lookup, if_neg n23, lookup, if_pos rfl]
  · rw [lookup, if_neg n14, lookup, if_neg n24, lookup, if_neg n34, lookup, if_pos rfl]

/-! ### Whole-loop behaviour -/

theorem transform_error_of_invalid {d : PyDict Value} {scoring : List String}
    (h : ∃ s ∈ scoring, validScore d s = false) :
    ∃ d', transform_cross_val_scores d scoring = .error d' := by
  induction scoring generalizing d with
  | nil => obtain ⟨s, hs, -⟩ := h; exact absurd hs (List.not_mem_nil s)
  | cons s₀ rest ih =>
      cases hv₀ : validScore d s₀ with
      | false =>
          obtain ⟨d', hd'⟩ := stepScore_error_of_invalid hv₀
          exact ⟨d', by simp only [transform_cross_val_scores, hd']⟩
      | true =>
          obtain ⟨d₁, hd₁⟩ := stepScore_ok_of_validScore hv₀
          obtain ⟨s, hs, hvs⟩ := h
          have hs' : s ∈ rest := by
            rcases List.mem_cons.mp hs with rfl | hmem
            · rw [hv₀] at hvs; exact absurd hvs (by simp)
            · exact hmem
          obtain ⟨m₀, w1, w2, w3, w4, hm₀, hshape⟩ := stepScore_ok_shape hd₁
          have hpres : validScore d₁ s = false := by
            cases hms : mapping s with
            | none => simp [validScore, hms]
            | some ms =>
                have hraw := raw_target_ne hms hm₀
                have htr' : hasKey d₁ ("train_" ++ s) = hasKey d ("train_" ++ s) := by
                  subst hshape
                  rw [hasKey_setKey, hasKey_setKey, hasKey_setKey, hasKey_setKey,
                    beq_eq_false_iff_ne.mpr (Ne.symm ((hraw _ (by simp [targetKeys])).1)),
                    beq_eq_false_iff_ne.mpr (Ne.symm ((hraw _ (by simp [targetKeys])).1)),
                    beq_eq_false_iff_ne.mpr (Ne.symm ((hraw _ (by simp [targetKeys])).1)),
                    beq_eq_false_iff_ne.mpr (Ne.symm ((hraw _ (by simp [targetKeys])).1))]
                  simp
                have hte' : hasKey d₁ ("test_" ++ s) = hasKey d ("test_" ++ s) := by
                  subst hshape
                  rw [hasKey_setKey, hasKey_setKey, hasKey_setKey, hasKey_setKey,
                    beq_eq_false_iff_ne.mpr (Ne.symm ((hraw _ (by simp [targetKeys])).2)),
                    beq_eq_false_iff_ne.mpr (Ne.symm ((hraw _ (by simp [targetKeys])).2)),
                    beq_eq_false_iff_ne.mpr (Ne.symm ((hraw _ (by simp [targetKeys])).2)),
                    beq_eq_false_iff_ne.mpr (Ne.symm ((hraw _ (by simp [targetKeys])).2))]
                  simp
                calc validScore d₁ s = validScore d s := by
                      simp only [validScore, htr', hte']
                  _ = false := hvs
          obtain ⟨d', hd'⟩ := ih ⟨s, hs', hpres⟩
          exact ⟨d', by simp only [transform_cross_val_scores, hd₁, hd']⟩

theorem transform_ok_full {d : PyDict Value} {scoring : List String}
    (hva : ∀ s ∈ scoring, validScore d s = true)
    (hfr : ∀ s ∈ scoring, freshTargets d s = true)
    (hnd : scoring.Nodup) :
    transform_cross_val_scores d scoring = .ok (d ++ allNewEntries d scoring) := by
  induction scoring generalizing d with
  | nil => simp [transform_cross_val_scores, allNewEntries]
  | cons s₀ rest ih =>
      have hv₀ := hva s₀ (List.mem_cons_self _ _)
      have hf₀ := hfr s₀ (List.mem_cons_self _ _)
      have hv₀' := hv₀
      simp only [validScore, Bool.and_eq_true, Option.isSome_iff_exists] at hv₀'
      obtain ⟨⟨⟨m₀, hm₀⟩, htrk⟩, htek⟩ := hv₀'
      obtain ⟨vtr, htr⟩ := Option.isSome_iff_exists.mp
        ((lookup_isSome_eq_hasKey d ("train_" ++ s₀)).symm ▸ htrk)
      obtain ⟨vte, hte⟩ := Option.isSome_iff_exists.mp
        ((lookup_isSome_eq_hasKey d ("test_" ++ s₀)).symm ▸ htek)
      have hstep := stepScore_ok_of_valid hm₀ htr hte ((freshTargets_iff hm₀).mp hf₀)
      have hs₀rest : s₀ ∉ rest := (List.nodup_cons.mp hnd).1
      have hE₀ : ∀ s ∈ rest, ∀ ms, mapping s = some ms →
          ∀ k ∈ targetKeys ms, hasKey (newEntries d s₀) k = false := by
        intro s hs ms hms k hk
        cases hb : hasKey (newEntries d s₀) k with
        | false => rfl
        | true =>
            obtain ⟨m₀', hm₀', hk₀⟩ := hasKey_newEntries_imp_mem hb
            rw [hm₀'] at hm₀
            have hne : s ≠ s₀ := fun hss => hs₀rest (hss ▸ hs)
            exact absurd hk₀ (target_disjoint hms hm₀' hne k hk)
      have hva' : ∀ s ∈ rest, validScore (d ++ newEntries d s₀) s = true := by
        intro s hs
        exact validScore_append_true _ (hva s (List.mem_cons_of_mem _ hs))
      have hfr' : ∀ s ∈ rest, freshTargets (d ++ newEntries d s₀) s = true := by
        intro s hs
        have hvs := hva s (List.mem_cons_of_mem _ hs)
        simp only [validScore, Bool.and_eq_true, Option.isSome_iff_exists] at hvs
        obtain ⟨⟨⟨ms, hms⟩, -⟩, -⟩ := hvs
        rw [freshTargets_iff hms]
        intro k hk
        rw [hasKey_append,
          (freshTargets_iff hms).mp (hfr s (List.mem_cons_of_mem _ hs)) k hk,
          hE₀ s hs ms hms k hk]
        rfl
      have hcongr : allNewEntries (d ++ newEntries d s₀) rest = allNewEntries d rest := by
        refine allNewEntries_congr (fun s hs => ?_)
        have hvs := hva s (List.mem_cons_of_mem _ hs)
        simp only [validScore, Bool.and_eq_true] at hvs
        exact newEntries_append_eq _ hvs.1.2 hvs.2
      simp only [transform_cross_val_scores, hstep]
      rw [ih hva' hfr' (List.nodup_cons.mp hnd).2, hcongr]
      simp only [allNewEntries, List.append_assoc]

theorem lookup_allNewEntries {d : PyDict Value} {scoring : List String} {s m : String}
    {vtr vte : Value} (hnd : scoring.Nodup) (hs : s ∈ scoring) (hm : mapping s = some m)
    (htr : lookup d ("train_" ++ s) = some vtr)
    (hte : lookup d ("test_" ++ s) = some vte) :
    lookup (allNewEntries d scoring) ("train_" ++ m ++ "_mean")
        = some (.num (vMean (vAbs vtr))) ∧
    lookup (allNewEntries d scoring) ("test_" ++ m ++ "_mean")
        = some (.num (vMean (vAbs vte))) ∧
    lookup (allNewEntries d scoring) ("train_" ++ m ++ "_std")
        = some (.num (vStd (vAbs vtr))) ∧
    lookup (allNewEntries d scoring) ("test_" ++ m ++ "_std")
        = some (.num (vStd (vAbs vte))) := by
  induction scoring with
  | nil => exact absurd hs (List.not_mem_nil s)
  | cons s₀ rest ih =>
      rcases List.mem_cons.mp hs with rfl | hmem
      · obtain ⟨e1, e2, e3, e4⟩ := lookup_newEntries hm htr hte
        have hask : ∀ k, lookup (newEntries d s) k = some (Value.num (vMean (vAbs vtr))) ∨
            lookup (newEntries d s) k = some (Value.num (vMean (vAbs vte))) ∨
            lookup (newEntries d s) k = some (Value.num (vStd (vAbs vtr))) ∨
            lookup (newEntries d s) k = some (Value.num (vStd (vAbs vte))) →
            hasKey (newEntries d s) k = true := by
          intro k hk
          rw [← lookup_isSome_eq_hasKey]
          rcases hk with h | h | h | h <;> rw [h] <;> rfl
        simp only [allNewEntries]
        rw [lookup_append_left _ _ (hask _ (Or.inl e1)),
          lookup_append_left _ _ (hask _ (Or.inr (Or.inl e2))),
          lookup_append_left _ _ (hask _ (Or.inr (Or.inr (Or.inl e3)))),
          lookup_append_left _ _ (hask _ (Or.inr (Or.inr (Or.inr e4))))]
        exact ⟨e1, e2, e3, e4⟩
      · have hne : s ≠ s₀ := fun hss => (List.nodup_cons.mp hnd).1 (hss ▸ hmem)
        have hskip : ∀ k ∈ targetKeys m, hasKey (newEntries d s₀) k = false := by
          intro k hk
          cases hb : hasKey (newEntries d s₀) k with
          | false => rfl
          | true =>
              obtain ⟨m₀', hm₀', hk₀⟩ := hasKey_newEntries_imp_mem hb
              exact absurd hk₀ (target_disjoint hm hm₀' hne k hk)
        obtain ⟨i1, i2, i3, i4⟩ := ih (List.nodup_cons.mp hnd).2 hmem
        simp only [allNewEntries]
        rw [lookup_append_of_hasKey_eq_false _ _ (hskip _ (by simp [targetKeys])),
          lookup_append_of_hasKey_eq_false _ _ (hskip _ (by simp [targetKeys])),
          lookup_append_of_hasKey_eq_false _ _ (hskip _ (by simp [targetKeys])),
          lookup_append_of_hasKey_eq_false _ _ (hskip _ (by simp [targetKeys]))]
        exact ⟨i1, i2, i3, i4⟩

/-! ## Comparison table builder (§4.4; `functions.py` lines 194–222)

The pandas `comparison_df` is modelled as a keyed collection of columns;
`comparison_df[model_name] = {...}` overwrites an existing column in place or
appends a new one, exactly the `setKey` semantics.  The four lookups into
`model_metrics` happen in the order of the dict literal; a missing key raises
(`none`).  The Python function returns `None` (pure mutation); the model
returns the updated table. -/

/-- One column of the comparison table: the four-entry mapping built by
`fill_comparison_df`. -/
abbrev MetricsColumn : Type := PyDict Value

/-- `fill_comparison_df(comparison_df, metrics, model_name, model_metrics)`. -/
def fill_comparison_df (comparison_df : PyDict MetricsColumn) (metrics : String)
    (model_name : String) (model_metrics : PyDict Value) :
    Option (PyDict MetricsColumn) :=
  match lookup model_metrics ("train_" ++ metrics ++ "_mean") with
  | none => none
  | some a =>
    match lookup model_metrics ("test_" ++ metrics ++ "_mean") with
    | none => none
    | some b =>
      match lookup model_metrics ("train_" ++ metrics ++ "_std") with
      | none => none
      | some c =>
        match lookup model_metrics ("test_" ++ metrics ++ "_std") with
        | none => none
        | some e =>
          some (setKey comparison_df model_name
            [("train_" ++ metrics ++ "_mean", a), ("test_" ++ metrics ++ "_mean", b),
             ("train_" ++ metrics ++ "_std", c), ("test_" ++ metrics ++ "_std", e)])

/-! ## Cramer's V pipeline (§4.5; `functions.py` lines 114–155)

Categorical values are coded as naturals.  `pd.crosstab(x, y)` pairs the two
columns positionally, so the table is derived from `x.zip y`: its row index
is the set of first components, its column index the set of second
components, and each cell counts one pair.  `scipy.stats.chi2_contingency`
computes expected frequencies from the margins and applies the Yates
continuity correction only when the `correction` flag is true *and* the
table has one degree of freedom. -/

/-- The paired observations underlying `pd.crosstab(x, y)`. -/
def pairs (x y : List ℕ) : List (ℕ × ℕ) := x.zip y

/-- `n = sum(conf_matrix.sum())`: the total count of the table. -/
def nObs (x y : List ℕ) : ℕ := (pairs x y).length

/-- The row index of the contingency table (distinct values of `x`). -/
def rowIndex (x y : List ℕ) : Finset ℕ := ((pairs x y).map Prod.fst).toFinset

/-- The column index of the contingency table (distinct values of `y`). -/
def colIndex (x y : List ℕ) : Finset ℕ := ((pairs x y).map Prod.snd).toFinset

/-- One cell of the contingency table. -/
def cellCount (x y : List ℕ) (a b : ℕ) : ℕ := (pairs x y).count (a, b)

/-- Row marginal of the table. -/
def rowMarginal (x y : List ℕ) (a : ℕ) : ℕ := ((pairs x y).map Prod.fst).count a

/-- Column marginal of the table. -/
def colMarginal (x y : List ℕ) (b : ℕ) : ℕ := ((pairs x y).map Prod.snd).count b

/-- Expected frequency of a cell under independence. -/
noncomputable def expectedFreq (x y : List ℕ) (a b : ℕ) : ℝ :=
  (rowMarginal x y a : ℝ) * (colMarginal x y b : ℝ) / (nObs x y : ℝ)

/-- The plain (uncorrected) chi-squared statistic of the table. -/
noncomputable def chi2Plain (x y : List ℕ) : ℝ :=
  ∑ a in rowIndex x y, ∑ b in colIndex x y,
    ((cellCount x y a b : ℝ) - expectedFreq x y a b) ^ 2 / expectedFreq x y a b

/-- The Yates-corrected chi-squared statistic: each deviation is shrunk
toward zero by at most 1/2 before squaring. -/
noncomputable def chi2Yates (x y : List ℕ) : ℝ :=
  ∑ a in rowIndex x y, ∑ b in colIndex x y,
    max (|(cellCount x y a b : ℝ) - expectedFreq x y a b| - 1 / 2) 0 ^ 2 /
      expectedFreq x y a b

/-- Degrees of freedom of the table. -/
def dof (x y : List ℕ) : ℕ := ((rowIndex x y).card - 1) * ((colIndex x y).card - 1)

/-- Lines 126–129: `correct = False` iff `conf_matrix.shape[0] == 2`
(two *rows*), else `True`. -/
def correctFlag (x y : List ℕ) : Bool := !((rowIndex x y).card == 2)

/-- Whether the continuity correction is actually applied by
`chi2_contingency(conf_matrix, correction=correct)`: the library applies
Yates only when `correction` is set and `dof == 1`. -/
def continuityCorrectionApplied (x y : List ℕ) : Bool :=
  correctFlag x y && (dof x y == 1)

/-- `chi2 = stats.chi2_contingency(conf_matrix, correction=correct)[0]`
(line 131). -/
noncomputable def chi2_contingency (x y : List ℕ) : ℝ :=
  if continuityCorrectionApplied x y then chi2Yates x y else chi2Plain x y

/-- Python's `round(v, p)` idealized over the reals: round to the nearest
multiple of `10 ^ (-p)` (ties differ from binary-float banker's rounding
only on exact half-ulp ties, which no claim exercises). -/
noncomputable def roundTo (p : ℕ) (v : ℝ) : ℝ := ((round (v * 10 ^ p) : ℤ) : ℝ) / 10 ^ p

/-- `phi2 = chi2/n` (line 135). -/
noncomputable def phi2 (x y : List ℕ) : ℝ := chi2_contingency x y / (nObs x y : ℝ)

/-- `phi2corr = max(0, phi2 - ((k-1)*(r-1))/(n-1))` (line 137), with
`r, k = conf_matrix.shape`. -/
noncomputable def phi2corr (x y : List ℕ) : ℝ :=
  max 0 (phi2 x y - (((colIndex x y).card : ℝ) - 1) * (((rowIndex x y).card : ℝ) - 1) /
    ((nObs x y : ℝ) - 1))

/-- `rcorr = r - ((r-1)**2)/(n-1)` (line 138). -/
noncomputable def rcorr (x y : List ℕ) : ℝ :=
  ((rowIndex x y).card : ℝ) - (((rowIndex x y).card : ℝ) - 1) ^ 2 / ((nObs x y : ℝ) - 1)

/-- `kcorr = k - ((k-1)**2)/(n-1)` (line 139). -/
noncomputable def kcorr (x y : List ℕ) : ℝ :=
  ((colIndex x y).card : ℝ) - (((colIndex x y).card : ℝ) - 1) ^ 2 / ((nObs x y : ℝ) - 1)

/-- `result = np.sqrt(phi2corr / min(kcorr-1, rcorr-1))` (line 140). -/
noncomputable def cramersResult (x y : List ℕ) : ℝ :=
  Real.sqrt (phi2corr x y / min (kcorr x y - 1) (rcorr x y - 1))

/-- `cramers_corrected_stat(x, y)` (lines 114–142): sentinel `-1` (after the
diagnostic print, which has no observable value) when either column has a
single distinct value (`len(value_counts()) == 1`), else the bias-corrected
statistic; always rounded to 6 decimals. -/
noncomputable def cramers_corrected_stat (x y : List ℕ) : ℝ :=
  if x.toFinset.card = 1 then roundTo 6 (-1)
  else if y.toFinset.card = 1 then roundTo 6 (-1)
  else roundTo 6 (cramersResult x y)

/-- `cramers_matrix(dataf)` (lines 145–155): the nested loop over ordered
column pairs, each entry additionally rounded to 2 decimals.  The DataFrame
is its list of columns. -/
noncomputable def cramers_matrix (dataf : List (List ℕ)) : List (List ℝ) :=
  dataf.map (fun var1 => dataf.map (fun var2 =>
    roundTo 2 (cramers_corrected_stat var1 var2)))

/-- Positional access `M[i][j]` into the matrix (0 outside the bounds). -/
noncomputable def matrixEntry (dataf : List (List ℕ)) (i j : ℕ) : ℝ :=
  ((cramers_matrix dataf).getD i []).getD j 0

/-! ### Transposition symmetry of the contingency machinery -/

theorem pairs_swap (x y : List ℕ) : pairs y x = (pairs x y).map Prod.swap :=
  (List.zip_swap x y).symm

theorem nObs_symm (x y : List ℕ) : nObs y x = nObs x y := by
  rw [nObs, pairs_swap, List.length_map]; rfl

theorem rowIndex_symm (x y : List ℕ) : rowIndex y x = colIndex x y := by
  rw [rowIndex, colIndex, pairs_swap, List.map_map,
    show Prod.fst ∘ Prod.swap = (Prod.snd : ℕ × ℕ → ℕ) from funext fun p => rfl]

theorem colIndex_symm (x y : List ℕ) : colIndex y x = rowIndex x y := by
  rw [colIndex, rowIndex, pairs_swap, List.map_map,
    show Prod.snd ∘ Prod.swap = (Prod.fst : ℕ × ℕ → ℕ) from funext fun p => rfl]

theorem count_map_swap (l : List (ℕ × ℕ)) (a b : ℕ) :
    (l.map Prod.swap).count (b, a) = l.count (a, b) := by
  induction l with
  | nil => rfl
  | cons p rest ih =>
      obtain ⟨c, d⟩ := p
      simp only [List.map_cons, List.count_cons, ih, Prod.swap_prod_mk]
      by_cases hc : c = a <;> by_cases hd : d = b <;>
        simp [hc, hd, Prod.ext_iff]

theorem cellCount_symm (x y : List ℕ) (a b : ℕ) :
    cellCount y x b a = cellCount x y a b := by
  rw [cellCount, cellCount, pairs_swap x y]
  exact count_map_swap _ a b

theorem rowMarginal_symm (x y : List ℕ) (b : ℕ) :
    rowMarginal y x b = colMarginal x y b := by
  rw [rowMarginal, colMarginal, pairs_swap, List.map_map,
    show Prod.fst ∘ Prod.swap = (Prod.snd : ℕ × ℕ → ℕ) from funext fun p => rfl]

theorem colMarginal_symm (x y : List ℕ) (a : ℕ) :
    colMarginal y x a = rowMarginal x y a := by
  rw [colMarginal, rowMarginal, pairs_swap, List.map_map,
    show Prod.snd ∘ Prod.swap = (Prod.fst : ℕ × ℕ → ℕ) from funext fun p => rfl]

theorem expectedFreq_symm (x y : List ℕ) (a b : ℕ) :
    expectedFreq y x b a = expectedFreq x y a b := by
  rw [expectedFreq, expectedFreq, rowMarginal_symm x y b, colMarginal_symm x y a,
    nObs_symm x y]
  ring

theorem chi2Plain_symm (x y : List ℕ) : chi2Plain y x = chi2Plain x y := by
  calc chi2Plain y x
      = ∑ p in colIndex x y, ∑ q in rowIndex x y,
          ((cellCount x y q p : ℝ) - expectedFreq x y q p) ^ 2 / expectedFreq x y q p := by
        rw [chi2Plain, rowIndex_symm x y, colIndex_symm x y]
        exact Finset.sum_congr rfl fun p _ => Finset.sum_congr rfl fun q _ => by
          rw [cellCount_symm x y q p, expectedFreq_symm x y q p]
    _ = chi2Plain x y := (Finset.sum_comm).symm

theorem continuityCorrection_never (x y : List ℕ) :
    continuityCorrectionApplied x y = false := by
  unfold continuityCorrectionApplied correctFlag dof
  by_cases h : (rowIndex x y).card = 2
  · simp [h]
  · have hd : ((rowIndex x y).card - 1) * ((colIndex x y).card - 1) ≠ 1 := by
      intro hme
      obtain ⟨h1, h2⟩ := mul_eq_one.mp hme
      exact h (by omega)
    simp [h, hd]

theorem chi2_contingency_eq_plain (x y : List ℕ) :
    chi2_contingency x y = chi2Plain x y := by
  rw [chi2_contingency, continuityCorrection_never]
  simp

theorem phi2_symm (x y : List ℕ) : phi2 y x = phi2 x y := by
  rw [phi2, phi2, chi2_contingency_eq_plain y x, chi2_contingency_eq_plain x y,
    chi2Plain_symm x y, nObs_symm x y]

theorem phi2corr_symm (x y : List ℕ) : phi2corr y x = phi2corr x y := by
  rw [phi2corr, phi2corr, phi2_symm x y, rowIndex_symm x y, colIndex_symm x y,
    nObs_symm x y]
  congr 1
  ring

theorem rcorr_symm (x y : List ℕ) : rcorr y x = kcorr x y := by
  rw [rcorr, kcorr, rowIndex_symm x y, nObs_symm x y]

theorem kcorr_symm (x y : List ℕ) : kcorr y x = rcorr x y := by
  rw [kcorr, rcorr, colIndex_symm x y, nObs_symm x y]

theorem cramersResult_symm (x y : List ℕ) : cramersResult y x = cramersResult x y := by
  rw [cramersResult, cramersResult, phi2corr_symm x y, rcorr_symm x y, kcorr_symm x y,
    min_comm]

theorem cramers_corrected_stat_symm (x y : List ℕ) :
    cramers_corrected_stat y x = cramers_corrected_stat x y := by
  unfold cramers_corrected_stat
  by_cases hx : x.toFinset.card = 1 <;> by_cases hy : y.toFinset.card = 1 <;>
    simp [hx, hy, cramersResult_symm]

theorem cramers_matrix_row {dataf : List (List ℕ)} {i : ℕ} (hi : i < dataf.length) :
    (cramers_matrix dataf).getD i []
      = dataf.map (fun var2 =>
          roundTo 2 (cramers_corrected_stat (dataf.get ⟨i, hi⟩) var2)) := by
  unfold cramers_matrix
  rw [List.getD_eq_getElem _ _ (by simpa using hi)]
  simp

theorem matrixEntry_of_lt {dataf : List (List ℕ)} {i j : ℕ}
    (hi : i < dataf.length) (hj : j < dataf.length) :
    matrixEntry dataf i j
      = roundTo 2 (cramers_corrected_stat (dataf.get ⟨i, hi⟩) (dataf.get ⟨j, hj⟩)) := by
  unfold matrixEntry
  rw [cramers_matrix_row hi, List.getD_eq_getElem _ _ (by simpa using hj)]
  simp

theorem matrixEntry_of_ge {dataf : List (List ℕ)} {i : ℕ} (j : ℕ)
    (hi : dataf.length ≤ i) : matrixEntry dataf i j = 0 := by
  unfold matrixEntry
  rw [show (cramers_matrix dataf).getD i [] = [] from
    List.getD_eq_default _ _ (by simpa [cramers_matrix] using hi)]
  rfl

theorem matrixEntry_of_ge_right {dataf : List (List ℕ)} {i j : ℕ}
    (hi : i < dataf.length) (hj : dataf.length ≤ j) : matrixEntry dataf i j = 0 := by
  unfold matrixEntry
  rw [cramers_matrix_row hi]
  exact List.getD_eq_default _ _ (by simpa using hj)

theorem matrixEntry_symm (dataf : List (List ℕ)) (i j : ℕ) :
    matrixEntry dataf i j = matrixEntry dataf j i := by
  rcases Nat.lt_or_ge i dataf.length with hi | hi <;>
    rcases Nat.lt_or_ge j dataf.length with hj | hj
  · rw [matrixEntry_of_lt hi hj, matrixEntry_of_lt hj hi,
      cramers_corrected_stat_symm]
  · rw [matrixEntry_of_ge_right hi hj, matrixEntry_of_ge i hj]
  · rw [matrixEntry_of_ge j hi, matrixEntry_of_ge_right hj hi]
  · rw [matrixEntry_of_ge j hi, matrixEntry_of_ge i hj]

theorem roundTo_neg_one : roundTo 6 (-1) = -1 := by
  rw [roundTo]
  norm_num
  rw [show ((-1000000 : ℝ)) = ((-1000000 : ℤ) : ℝ) by norm_num, round_intCast]
  norm_num

/-! ## Fold-splitter selection (`k_fold_cross_val`, lines 807–816)

`get_scorer_names()` is the external sklearn registry, passed in as the list
`scorerNames`.  The function first validates the requested score names
(raising `ValueError`, modelled `.error`, if any is unknown), then picks the
`cv` argument for `cross_validate`: the bare `n_splits` by default,
overwritten by a `StratifiedKFold` if `stratified`, overwritten in turn by a
plain `KFold` if `k_fold`.  The observable we model is exactly this `cv`
argument. -/

/-- The `cv` argument handed to `cross_validate`. -/
inductive CvSplitter : Type
  | nSplits : ℕ → CvSplitter
  | stratifiedKFold : (n_splits : ℕ) → (shuffle : Bool) → (random_state : ℤ) → CvSplitter
  | kFold : (n_splits : ℕ) → (shuffle : Bool) → (random_state : ℤ) → CvSplitter
deriving DecidableEq

/-- `k_fold_cross_val` (lines 807–816), up to the opaque `cross_validate`
call: validates `scoring` against the scorer registry, then selects `cv`. -/
def k_fold_cross_val (scorerNames : List String) (scoring : List String)
    (k_fold stratified : Bool) (n_splits : ℕ) (random_state : ℤ) :
    Except Unit CvSplitter :=
  if scoring.any (fun score => !(scorerNames.contains score)) then .error ()
  else
    let cv := CvSplitter.nSplits n_splits
    let cv := if stratified then
      CvSplitter.stratifiedKFold n_splits true random_state else cv
    let cv := if k_fold then CvSplitter.kFold n_splits true random_state else cv
    .ok cv

/-! ## The claims -/

/-- C1, counterexample: on the 2×2 contingency table built from
`x = [0,0,1,1]`, `y = [0,1,0,1]` (two equal-length columns, each with two
distinct values), the code passes `correction=False` (because
`conf_matrix.shape[0] == 2`), so no continuity correction is applied — the
claim says the correction is applied exactly for 2×2 tables. -/
theorem claim_C1_counterexample :
    ([0, 0, 1, 1] : List ℕ).length = ([0, 1, 0, 1] : List ℕ).length ∧
    2 ≤ ([0, 0, 1, 1] : List ℕ).toFinset.card ∧
    2 ≤ ([0, 1, 0, 1] : List ℕ).toFinset.card ∧
    (rowIndex [0, 0, 1, 1] [0, 1, 0, 1]).card = 2 ∧
    (colIndex [0, 0, 1, 1] [0, 1, 0, 1]).card = 2 ∧
    correctFlag [0, 0, 1, 1] [0, 1, 0, 1] = false ∧
    continuityCorrectionApplied [0, 0, 1, 1] [0, 1, 0, 1] = false := by
  decide

/-- C1, amended: the continuity correction is never applied, for any pair of
columns.  The code disables the `correction` flag exactly when the table has
two rows, while the chi-squared routine applies the Yates correction only at
one degree of freedom (which forces a 2×2 table, hence two rows). -/
theorem claim_C1_amended (x y : List ℕ) :
    continuityCorrectionApplied x y = false :=
  continuityCorrection_never x y

/-- C5: `adjusted_r2` returns exactly `1 - (1 - r2)*(n - 1)/(n - p - 1)`
whenever `n > p + 1`, and is a division by zero (no result) when
`n - p - 1 == 0`. -/
theorem claim_C5 (y_true : List ℝ) (p : ℕ) (r2v : ℝ) :
    (p + 1 < y_true.length →
      adjusted_r2 y_true p r2v
        = some (1 - (1 - r2v) * ((y_true.length : ℝ) - 1) /
            ((y_true.length : ℝ) - p - 1))) ∧
    (y_true.length = p + 1 → adjusted_r2 y_true p r2v = none) := by
  constructor
  · intro h
    rw [adjusted_r2, if_neg (by omega)]
  · intro h
    rw [adjusted_r2, if_pos (by omega)]

/-- C5, witness: a 5-observation vector with width 2 gives the formula; a
3-observation vector with width 2 hits the division by zero. -/
theorem claim_C5_witness :
    adjusted_r2 [(1 : ℝ), 2, 3, 4, 5] 2 (1 / 2)
      = some (1 - (1 - 1 / 2) * ((5 : ℝ) - 1) / ((5 : ℝ) - 2 - 1)) ∧
    adjusted_r2 [(1 : ℝ), 2, 3] 2 (1 / 2) = none := by
  constructor
  · rw [(claim_C5 [(1 : ℝ), 2, 3, 4, 5] 2 (1 / 2)).1 (by norm_num)]
    norm_num
  · exact (claim_C5 [(1 : ℝ), 2, 3] 2 (1 / 2)).2 (by norm_num)

/-- C7: on equal-length columns where at least one is constant (one distinct
value), `cramers_corrected_stat` does not reach the chi-squared computation:
it reports the degenerate condition (a diagnostic print) and returns the
sentinel `-1` (`round(-1, 6) = -1`). -/
theorem claim_C7 (x y : List ℕ) (_hlen : x.length = y.length)
    (hdeg : x.toFinset.card = 1 ∨ y.toFinset.card = 1) :
    cramers_corrected_stat x y = -1 := by
  unfold cramers_corrected_stat
  rcases hdeg with h | h
  · rw [if_pos h]
    exact roundTo_neg_one
  · by_cases hx : x.toFinset.card = 1
    · rw [if_pos hx]
      exact roundTo_neg_one
    · rw [if_neg hx, if_pos h]
      exact roundTo_neg_one

/-- C7, witness: a constant first column of length 2 yields the sentinel. -/
theorem claim_C7_witness :
    ([5, 5] : List ℕ).toFinset.card = 1 ∧
    cramers_corrected_stat [5, 5] [1, 2] = -1 :=
  ⟨by decide, claim_C7 [5, 5] [1, 2] (by decide) (Or.inl (by decide))⟩

/-- C8: `cramers_matrix` returns a square matrix (one row per column of the
DataFrame, each row as long as the column count) that is symmetric:
`M[i][j] = M[j][i]` for all positions. -/
theorem claim_C8 (dataf : List (List ℕ)) :
    (cramers_matrix dataf).length = dataf.length ∧
    (cramers_matrix dataf).map List.length
      = List.replicate dataf.length dataf.length ∧
    ∀ i j : ℕ, matrixEntry dataf i j = matrixEntry dataf j i := by
  refine ⟨by simp [cramers_matrix], ?_, fun i j => matrixEntry_symm dataf i j⟩
  simp [cramers_matrix, List.map_map, Function.comp_def, List.map_const']

/-- C10: whenever both `stratified` and `k_fold` are requested (and the
scorer names pass validation), the `cv` passed to `cross_validate` is the
plain `KFold` splitter — the `k_fold` branch is evaluated after the
`stratified` one and overwrites it, silently ignoring stratification. -/
theorem claim_C10 (scorerNames scoring : List String) (n_splits : ℕ)
    (random_state : ℤ)
    (h : scoring.all (fun score => scorerNames.contains score) = true) :
    k_fold_cross_val scorerNames scoring true true n_splits random_state
      = .ok (CvSplitter.kFold n_splits true random_state) := by
  have hcond : scoring.any (fun score => !(scorerNames.contains score)) = false := by
    rw [List.any_eq_false]
    intro s hs
    simp only [List.all_eq_true] at h
    rw [h s hs]
    simp
  rw [k_fold_cross_val, hcond]
  rfl

/-- C10, witness: with a valid scoring list and both flags set, the selected
splitter is the plain `KFold`, not the stratified one. -/
theorem claim_C10_witness :
    ((["r2"] : List String).all
      (fun score => (["r2", "neg_mean_absolute_error"] : List String).contains score)
        = true) ∧
    k_fold_cross_val ["r2", "neg_mean_absolute_error"] ["r2"] true true 5 42
      = .ok (CvSplitter.kFold 5 true 42) :=
  ⟨by decide, claim_C10 ["r2", "neg_mean_absolute_error"] ["r2"] 5 42 (by decide)⟩

/-- Whether the computation raised. -/
def raised {ε α : Type} : Except ε α → Bool
  | .error _ => true
  | .ok _ => false

/-- The dictionary state at the end of the computation: the state at the
moment of the raise for an error, the returned record otherwise. -/
def resultState : Except (PyDict Value) (PyDict Value) → PyDict Value
  | .error d => d
  | .ok d => d

/-- C2, counterexample: with raw record
`{"train_neg_mean_absolute_error": [1]}` (the `test_` raw key absent) and
`scoring = ["neg_mean_absolute_error"]`, the call raises a key-lookup error
as claimed, but the first loop line has already written the normalized key
`train_mae_mean` into the record before the failing `test_` lookup — so a
partial normalized key IS written, contradicting the claim. -/
theorem claim_C2_counterexample :
    validScore [("train_neg_mean_absolute_error", Value.arr [1])]
      "neg_mean_absolute_error" = false ∧
    raised (transform_cross_val_scores
      [("train_neg_mean_absolute_error", Value.arr [1])]
      ["neg_mean_absolute_error"]) = true ∧
    hasKey [("train_neg_mean_absolute_error", Value.arr [1])] "train_mae_mean"
      = false ∧
    hasKey (resultState (transform_cross_val_scores
      [("train_neg_mean_absolute_error", Value.arr [1])]
      ["neg_mean_absolute_error"])) "train_mae_mean" = true := by
  refine ⟨by decide, ?_, by decide, ?_⟩ <;> rfl

/-- C2, amended: requesting a metric identifier absent from the canonical
table, or one whose `train_`/`test_` raw keys are missing, makes
`transform_cross_val_scores` raise a key-lookup error; however, normalized
keys written before the failing lookup remain in the record (partial results
are possible, as the counterexample shows). -/
theorem claim_C2_amended (d : PyDict Value) (scoring : List String)
    (h : ∃ s ∈ scoring, validScore d s = false) :
    ∃ d', transform_cross_val_scores d scoring = .error d' :=
  transform_error_of_invalid h

/-- C2, witness for the amended claim: an identifier absent from the
canonical table raises. -/
theorem claim_C2_amended_witness :
    validScore [("train_neg_mean_absolute_error", Value.arr [1])] "nope" = false ∧
    ∃ d', transform_cross_val_scores
      [("train_neg_mean_absolute_error", Value.arr [1])] ["nope"] = .error d' :=
  ⟨by decide, claim_C2_amended _ _ ⟨"nope", by decide, by decide⟩⟩

/-- C4: on a record holding the raw keys of every requested metric, with the
normalized target keys not yet present and no duplicated request,
`transform_cross_val_scores` returns its input record extended in place:
every pre-existing binding is kept unchanged (the result is the input with
bindings appended), exactly four new keys are appended per requested metric,
and for a nonempty request the record does not stay unmodified.  (Python
object identity — "the very same dict object" — appears in the model as the
result being the input list extended, never a rebuilt one.) -/
theorem claim_C4 (d : PyDict Value) (scoring : List String)
    (hva : ∀ s ∈ scoring, validScore d s = true)
    (hfr : ∀ s ∈ scoring, freshTargets d s = true)
    (hnd : scoring.Nodup) :
    transform_cross_val_scores d scoring = .ok (d ++ allNewEntries d scoring) ∧
    (allNewEntries d scoring).length = 4 * scoring.length ∧
    (scoring ≠ [] → d ++ allNewEntries d scoring ≠ d) := by
  refine ⟨transform_ok_full hva hfr hnd, allNewEntries_length hva, fun hne heq => ?_⟩
  have hlen := congrArg List.length heq
  rw [List.length_append, allNewEntries_length hva] at hlen
  have hn0 : scoring.length ≠ 0 := fun h0 => hne (List.length_eq_zero.mp h0)
  omega

/-- C4, witness: a record with the raw `r2` fold scores gains exactly the
four `r2` keys, appended after the untouched original bindings. -/
theorem claim_C4_witness :
    transform_cross_val_scores
        [("train_r2", Value.arr [1, 2]), ("test_r2", Value.arr [3])] ["r2"]
      = .ok ([("train_r2", Value.arr [1, 2]), ("test_r2", Value.arr [3])] ++
          allNewEntries
            [("train_r2", Value.arr [1, 2]), ("test_r2", Value.arr [3])] ["r2"]) ∧
    (allNewEntries [("train_r2", Value.arr [1, 2]), ("test_r2", Value.arr [3])]
      ["r2"]).length = 4 * (["r2"] : List String).length ∧
    ((["r2"] : List String) ≠ [] →
      [("train_r2", Value.arr [1, 2]), ("test_r2", Value.arr [3])] ++
        allNewEntries [("train_r2", Value.arr [1, 2]), ("test_r2", Value.arr [3])]
          ["r2"]
        ≠ [("train_r2", Value.arr [1, 2]), ("test_r2", Value.arr [3])]) :=
  claim_C4 [("train_r2", Value.arr [1, 2]), ("test_r2", Value.arr [3])] ["r2"]
    (by decide) (by decide) (by decide)

/-- C3: for every requested metric (canonical name `m`) on a valid record,
the returned record stores at `{train,test}_{m}_mean` the mean and at
`{train,test}_{m}_std` the standard deviation of the absolute values of the
corresponding raw per-fold scores (`vMean`/`vStd` after `vAbs`). -/
theorem claim_C3 (d : PyDict Value) (scoring : List String) (s m : String)
    (vtr vte : Value)
    (hva : ∀ t ∈ scoring, validScore d t = true)
    (hfr : ∀ t ∈ scoring, freshTargets d t = true)
    (hnd : scoring.Nodup) (hs : s ∈ scoring) (hm : mapping s = some m)
    (htr : lookup d ("train_" ++ s) = some vtr)
    (hte : lookup d ("test_" ++ s) = some vte) :
    ∃ d', transform_cross_val_scores d scoring = .ok d' ∧
      lookup d' ("train_" ++ m ++ "_mean") = some (.num (vMean (vAbs vtr))) ∧
      lookup d' ("test_" ++ m ++ "_mean") = some (.num (vMean (vAbs vte))) ∧
      lookup d' ("train_" ++ m ++ "_std") = some (.num (vStd (vAbs vtr))) ∧
      lookup d' ("test_" ++ m ++ "_std") = some (.num (vStd (vAbs vte))) := by
  have hfresh := (freshTargets_iff hm).mp (hfr s hs)
  obtain ⟨e1, e2, e3, e4⟩ := lookup_allNewEntries hnd hs hm htr hte
  refine ⟨d ++ allNewEntries d scoring, transform_ok_full hva hfr hnd, ?_, ?_, ?_, ?_⟩
  · rw [lookup_append_of_hasKey_eq_false _ _ (hfresh _ (by simp [targetKeys]))]
    exact e1
  · rw [lookup_append_of_hasKey_eq_false _ _ (hfresh _ (by simp [targetKeys]))]
    exact e2
  · rw [lookup_append_of_hasKey_eq_false _ _ (hfresh _ (by simp [targetKeys]))]
    exact e3
  · rw [lookup_append_of_hasKey_eq_false _ _ (hfresh _ (by simp [targetKeys]))]
    exact e4

/-- C3, witness: the spec's concrete instance.  Raw fold scores
`{"train_neg_root_mean_squared_error": [-1,-2,-3],
"test_neg_root_mean_squared_error": [-4,-5]}` yield
`train_rmse_mean = 2`, `test_rmse_mean = 4.5 = 9/2`,
`train_rmse_std = sqrt(2/3)` and `test_rmse_std = 1/2`, the population
statistics of the absolute-valued fold scores `[1,2,3]` and `[4,5]`. -/
theorem claim_C3_witness :
    ∃ d', transform_cross_val_scores
        [("train_neg_root_mean_squared_error", Value.arr [-1, -2, -3]),
         ("test_neg_root_mean_squared_error", Value.arr [-4, -5])]
        ["neg_root_mean_squared_error"] = .ok d' ∧
      lookup d' "train_rmse_mean" = some (.num 2) ∧
      lookup d' "test_rmse_mean" = some (.num (9 / 2)) ∧
      lookup d' "train_rmse_std" = some (.num (Real.sqrt (2 / 3))) ∧
      lookup d' "test_rmse_std" = some (.num (1 / 2)) := by
  have v1 : vMean (vAbs (Value.arr [(-1 : ℝ), -2, -3])) = 2 := by
    norm_num [vMean, vAbs, listMean]
  have v2 : vMean (vAbs (Value.arr [(-4 : ℝ), -5])) = 9 / 2 := by
    norm_num [vMean, vAbs, listMean]
  have v3 : vStd (vAbs (Value.arr [(-1 : ℝ), -2, -3])) = Real.sqrt (2 / 3) := by
    rw [vAbs, vStd, listStd]
    congr 1
    norm_num [listMean]
  have v4 : vStd (vAbs (Value.arr [(-4 : ℝ), -5])) = 1 / 2 := by
    rw [vAbs, vStd, listStd]
    rw [show listMean (List.map (fun v => (v - listMean (List.map (fun v => |v|)
      [(-4 : ℝ), -5])) ^ 2) (List.map (fun v => |v|) [(-4 : ℝ), -5])) = (1 / 2) ^ 2 by
        norm_num [listMean]]
    exact Real.sqrt_sq (by norm_num)
  obtain ⟨d', hok, e1, e2, e3, e4⟩ :=
    claim_C3
      [("train_neg_root_mean_squared_error", Value.arr [-1, -2, -3]),
       ("test_neg_root_mean_squared_error", Value.arr [-4, -5])]
      ["neg_root_mean_squared_error"] "neg_root_mean_squared_error" "rmse"
      (Value.arr [-1, -2, -3]) (Value.arr [-4, -5])
      (by decide) (by decide) (by decide) (by decide) (by decide) rfl rfl
  rw [v1] at e1
  rw [v2] at e2
  rw [v3] at e3
  rw [v4] at e4
  exact ⟨d', hok, e1, e2, e3, e4⟩

theorem zipWith_self_sq_sum (v : List ℝ) :
    (List.zipWith (fun a b => (a - b) ^ 2) v v).sum = 0 := by
  induction v with
  | nil => rfl
  | cons a rest ih => simp [List.zipWith_cons_cons, ih]

theorem zipWith_self_abs_sum (v : List ℝ) :
    (List.zipWith (fun a b => |a - b|) v v).sum = 0 := by
  induction v with
  | nil => rfl
  | cons a rest ih => simp [List.zipWith_cons_cons, ih]

/-- C9, counterexample: the metric functions do not yield the perfect-fit
values on *every* finite vector.  On the one-element vector `[5]`,
`r2([5],[5])` is `nan` (sklearn refuses fewer than two samples), not `1`;
and on the empty vector `rmse` raises instead of returning `0`.  Both "no
real result" outcomes are `none` in the model. -/
theorem claim_C9_counterexample :
    r2 [(5 : ℝ)] [(5 : ℝ)] = none ∧
    rmse_score ([] : List ℝ) ([] : List ℝ) = none := by
  constructor
  · norm_num [r2, r2_score]
  · norm_num [rmse_score, mean_squared_error]

/-- C9, amended: for every nonempty vector `v`, `rmse(v,v) = 0` and
`mae(v,v) = 0`; when `v` additionally has at least two observations,
`r2(v,v) = 1` as well. -/
theorem claim_C9_amended (v : List ℝ) :
    (v ≠ [] → rmse_score v v = some 0 ∧ mae_score v v = some 0) ∧
    (2 ≤ v.length → r2 v v = some 1) := by
  constructor
  · intro hne
    have hlen : v.length ≠ 0 := fun h0 => hne (List.length_eq_zero.mp h0)
    constructor
    · rw [rmse_score, mean_squared_error, if_pos ⟨rfl, hlen⟩]
      simp [listMean, zipWith_self_sq_sum]
    · rw [mae_score, mean_absolute_error, if_pos ⟨rfl, hlen⟩]
      simp [listMean, zipWith_self_abs_sum]
  · intro h2
    rw [r2, r2_score, if_pos rfl, if_neg (by omega)]
    by_cases hden : (v.map (fun w => (w - listMean v) ^ 2)).sum ≠ 0
    · rw [if_pos hden, zipWith_self_sq_sum]
      norm_num
    · rw [if_neg hden, if_neg (by rw [zipWith_self_sq_sum]; exact fun hc => hc rfl)]

/-- C9, witness for the amended claim, on the two-element vector `[1, 2]`. -/
theorem claim_C9_amended_witness :
    rmse_score [(1 : ℝ), 2] [(1 : ℝ), 2] = some 0 ∧
    mae_score [(1 : ℝ), 2] [(1 : ℝ), 2] = some 0 ∧
    r2 [(1 : ℝ), 2] [(1 : ℝ), 2] = some 1 :=
  ⟨((claim_C9_amended [(1 : ℝ), 2]).1 (by simp)).1,
   ((claim_C9_amended [(1 : ℝ), 2]).1 (by simp)).2,
   (claim_C9_amended [(1 : ℝ), 2]).2 (by simp)⟩

/-- C6: `fill_comparison_df` writes exactly the four pairs
`{train,test}_{metrics}_{mean,std}` (taken from `model_metrics`) as the
column for `model_name`, and a second call with the same `model_name`
replaces that column in place rather than appending a duplicate.  The
Python function returns `None` and mutates `comparison_df`; the model
returns the mutated table. -/
theorem claim_C6 (t : PyDict MetricsColumn) (met1 met2 model_name : String)
    (mm1 mm2 : PyDict Value) (a1 b1 c1 e1 a2 b2 c2 e2 : Value)
    (hfresh : hasKey t model_name = false)
    (h11 : lookup mm1 ("train_" ++ met1 ++ "_mean") = some a1)
    (h12 : lookup mm1 ("test_" ++ met1 ++ "_mean") = some b1)
    (h13 : lookup mm1 ("train_" ++ met1 ++ "_std") = some c1)
    (h14 : lookup mm1 ("test_" ++ met1 ++ "_std") = some e1)
    (h21 : lookup mm2 ("train_" ++ met2 ++ "_mean") = some a2)
    (h22 : lookup mm2 ("test_" ++ met2 ++ "_mean") = some b2)
    (h23 : lookup mm2 ("train_" ++ met2 ++ "_std") = some c2)
    (h24 : lookup mm2 ("test_" ++ met2 ++ "_std") = some e2) :
    fill_comparison_df t met1 model_name mm1
      = some (t ++ [(model_name,
          [("train_" ++ met1 ++ "_mean", a1), ("test_" ++ met1 ++ "_mean", b1),
           ("train_" ++ met1 ++ "_std", c1), ("test_" ++ met1 ++ "_std", e1)])]) ∧
    fill_comparison_df
        (t ++ [(model_name,
          [("train_" ++ met1 ++ "_mean", a1), ("test_" ++ met1 ++ "_mean", b1),
           ("train_" ++ met1 ++ "_std", c1), ("test_" ++ met1 ++ "_std", e1)])])
        met2 model_name mm2
      = some (t ++ [(model_name,
          [("train_" ++ met2 ++ "_mean", a2), ("test_" ++ met2 ++ "_mean", b2),
           ("train_" ++ met2 ++ "_std", c2), ("test_" ++ met2 ++ "_std", e2)])]) := by
  constructor
  · simp only [fill_comparison_df, h11, h12, h13, h14]
    rw [setKey_of_not_hasKey _ _ hfresh]
  · simp only [fill_comparison_df, h21, h22, h23, h24]
    rw [setKey_append_singleton _ _ _ hfresh]

/-- C6, witness: filling an empty table for model "linear_regression" with
rmse metrics, then refilling the same model name with mae metrics, leaves a
single column holding exactly the second four pairs. -/
theorem claim_C6_witness :
    fill_comparison_df [] "rmse" "linear_regression"
        [("train_rmse_mean", Value.num 1), ("test_rmse_mean", Value.num 2),
         ("train_rmse_std", Value.num 3), ("test_rmse_std", Value.num 4)]
      = some ([] ++ [("linear_regression",
          [("train_" ++ "rmse" ++ "_mean", Value.num 1),
           ("test_" ++ "rmse" ++ "_mean", Value.num 2),
           ("train_" ++ "rmse" ++ "_std", Value.num 3),
           ("test_" ++ "rmse" ++ "_std", Value.num 4)])]) ∧
    fill_comparison_df
        ([] ++ [("linear_regression",
          [("train_" ++ "rmse" ++ "_mean", Value.num 1),
           ("test_" ++ "rmse" ++ "_mean", Value.num 2),
           ("train_" ++ "rmse" ++ "_std", Value.num 3),
           ("test_" ++ "rmse" ++ "_std", Value.num 4)])])
        "mae" "linear_regression"
        [("train_mae_mean", Value.num 5), ("test_mae_mean", Value.num 6),
         ("train_mae_std", Value.num 7), ("test_mae_std", Value.num 8)]
      = some ([] ++ [("linear_regression",
          [("train_" ++ "mae" ++ "_mean", Value.num 5),
           ("test_" ++ "mae" ++ "_mean", Value.num 6),
           ("train_" ++ "mae" ++ "_std", Value.num 7),
           ("test_" ++ "mae" ++ "_std", Value.num 8)])]) :=
  claim_C6 [] "rmse" "mae" "linear_regression"
    [("train_rmse_mean", Value.num 1), ("test_rmse_mean", Value.num 2),
     ("train_rmse_std", Value.num 3), ("test_rmse_std", Value.num 4)]
    [("train_mae_mean", Value.num 5), ("test_mae_mean", Value.num 6),
     ("train_mae_std", Value.num 7), ("test_mae_std", Value.num 8)]
    (Value.num 1) (Value.num 2) (Value.num 3) (Value.num 4)
    (Value.num 5) (Value.num 6) (Value.num 7) (Value.num 8)
    (by decide) rfl rfl rfl rfl rfl rfl rfl rfl
